import Mathlib

set_option linter.dupNamespace false

/-!
Shallow embedding of the primitive layer of a parser-combinator library
(`src/primitives.rs`): positions, error information, the consumed/empty
flag, parse errors with their merge algebra, streams, states and the
default `parse_state` wiring of the `Parser` trait.

Modelling conventions:
* Rust slices and iterators are modelled as Lean lists; a `&str` is the
  list of its Unicode scalar values (`List Char`), its range type is
  modelled as `String`.
* `Box<StdError + Send>` payloads (the `Other` error variant) are
  modelled by their display string; the source never compares them
  (`PartialEq` on `Error` returns `false` for `Other`), so only the
  display form is observable.
* `i32` position counters are modelled as `Int` values together with
  explicit two's-complement wrapping (`wrap32`) on every increment, the
  release-mode semantics of the source's `+= 1`; a checked variant
  (`charUpdateChecked`) returns `none` where a debug build's overflow
  check would abort.  `usize` byte offsets are modelled as `Nat`: an
  offset overflow would need `2^64` in-memory items, which no input the
  library can hold can reach, unlike the `i32` bound, which a single
  multi-gigabyte line does reach.
* `Result<T, E>` is `Except E T`; in-place mutation (`&mut`) becomes
  explicit value passing.
-/

namespace Combine

/-- `SourcePosition { line: i32, column: i32 }`. -/
structure SourcePosition where
  line : Int
  column : Int
deriving DecidableEq, Repr

/-- `BytePosition { position: usize }`. -/
structure BytePosition where
  position : Nat
deriving DecidableEq, Repr

/-- `Info<T, R>`: diagnostic payload. `Owned` is `Info::Owned(String)`,
`Borrowed` is `Info::Borrowed(&'static str)`. -/
inductive Info (T R : Type) where
  | Token : T → Info T R
  | Range : R → Info T R
  | Owned : String → Info T R
  | Borrowed : String → Info T R
deriving DecidableEq, Repr

/-- `PartialEq for Info`: structural per variant, except that owned and
borrowed messages compare by string content. -/
def Info.beq {T R : Type} [BEq T] [BEq R] : Info T R → Info T R → Bool
  | .Token l, .Token r => l == r
  | .Range l, .Range r => l == r
  | .Owned l, .Owned r => l == r
  | .Borrowed l, .Owned r => l == r
  | .Owned l, .Borrowed r => l == r
  | .Borrowed l, .Borrowed r => l == r
  | _, _ => false

instance {T R : Type} [BEq T] [BEq R] : BEq (Info T R) := ⟨Info.beq⟩

/-- `Error<T, R>`: the four error kinds. The `Other` variant carries a
boxed foreign error in the source; it is modelled by its display
string. -/
inductive Error (T R : Type) where
  | Unexpected : Info T R → Error T R
  | Expected : Info T R → Error T R
  | Message : Info T R → Error T R
  | Other : String → Error T R
deriving DecidableEq, Repr

/-- `PartialEq for Error`: same variant with equal `Info`; `Other` is
never equal to anything (the source has no `Other`/`Other` arm, so the
catch-all returns `false`). -/
def Error.beq {T R : Type} [BEq T] [BEq R] : Error T R → Error T R → Bool
  | .Unexpected l, .Unexpected r => Info.beq l r
  | .Expected l, .Expected r => Info.beq l r
  | .Message l, .Message r => Info.beq l r
  | _, _ => false

instance {T R : Type} [BEq T] [BEq R] : BEq (Error T R) := ⟨Error.beq⟩

/-- `Error::end_of_input()`. -/
def Error.end_of_input {T R : Type} : Error T R := .Message (.Borrowed "End of input")

/-- `Consumed<T>`: tag recording whether a parser consumed input. -/
inductive Consumed (T : Type) where
  | Consumed : T → Consumed T
  | Empty : T → Consumed T
deriving DecidableEq, Repr

/-- `Consumed::is_empty`. -/
def Consumed.is_empty {T : Type} : Combine.Consumed T → Bool
  | .Empty _ => true
  | .Consumed _ => false

/-- `Consumed::into_inner`. -/
def Consumed.into_inner {T : Type} : Combine.Consumed T → T
  | .Empty x => x
  | .Consumed x => x

/-- `Consumed::as_consumed`. -/
def Consumed.as_consumed {T : Type} (self : Combine.Consumed T) : Combine.Consumed T :=
  .Consumed self.into_inner

/-- `Consumed::as_empty`. -/
def Consumed.as_empty {T : Type} (self : Combine.Consumed T) : Combine.Consumed T :=
  .Empty self.into_inner

/-- `Consumed::map`. -/
def Consumed.map {T U : Type} (self : Combine.Consumed T) (f : T → U) : Combine.Consumed U :=
  match self with
  | .Empty x => .Empty (f x)
  | .Consumed x => .Consumed (f x)

/-- `ParseError<S>`: a position together with the errors recorded
there. -/
structure ParseError (P T R : Type) where
  position : P
  errors : List (Error T R)
deriving DecidableEq, Repr

/-- `State<I>`: current position plus remaining input. -/
structure State (P S : Type) where
  position : P
  input : S
deriving DecidableEq, Repr

/-- `ParseResult<O, I> = Result<(O, Consumed<State<I>>), Consumed<ParseError<I>>>`. -/
abbrev ParseResult (O S P T R : Type) : Type :=
  Except (Consumed (ParseError P T R)) (O × Consumed (State P S))

/-- `Consumed::combine`: bind-like composition of consumed flags. -/
def Consumed.combine {T O S P' T' R' : Type} (self : Combine.Consumed T)
    (f : T → ParseResult O S P' T' R') : ParseResult O S P' T' R' :=
  match self with
  | .Consumed x =>
    match f x with
    | .ok (v, .Empty rest) => .ok (v, .Consumed rest)
    | .error (.Empty err) => .error (.Consumed err)
    | y => y
  | .Empty x => f x

/-- `ParseError::new`. -/
def ParseError.new {P T R : Type} (position : P) (error : Error T R) : ParseError P T R :=
  ⟨position, [error]⟩

/-- `ParseError::empty`. -/
def ParseError.empty {P T R : Type} (position : P) : ParseError P T R :=
  ⟨position, []⟩

/-- `ParseError::from_errors`. -/
def ParseError.from_errors {P T R : Type} (position : P) (errors : List (Error T R)) :
    ParseError P T R :=
  ⟨position, errors⟩

/-- `ParseError::add_error`: push `message` unless an existing entry
compares equal to it. -/
def ParseError.add_error {P T R : Type} [BEq T] [BEq R] (self : ParseError P T R)
    (message : Error T R) : ParseError P T R :=
  if (self.errors.find? (fun msg => Error.beq msg message)).isNone then
    { self with errors := self.errors ++ [message] }
  else self

/-- `Ord::cmp` for a totally ordered position type. -/
def posCmp {P : Type} [LinearOrder P] (x y : P) : Ordering :=
  if x < y then .lt else if y < x then .gt else .eq

/-- `ParseError::merge`: keep the errors of the furthest position; at a
tie, insert `other`'s errors into `self` via `add_error`. -/
def ParseError.merge {P T R : Type} [LinearOrder P] [BEq T] [BEq R]
    (self other : ParseError P T R) : ParseError P T R :=
  match posCmp self.position other.position with
  | .lt => other
  | .gt => self
  | .eq => other.errors.foldl ParseError.add_error self

/-- `PartialEq for ParseError`: equal positions and elementwise equal
error vectors. -/
def ParseError.beq {P T R : Type} [BEq P] [BEq T] [BEq R]
    (self other : ParseError P T R) : Bool :=
  self.position == other.position && self.errors == other.errors

/-- The `Stream` trait: `uncons` yields the first item and the rest, or
an error. -/
structure StreamOps (S T R : Type) where
  uncons : S → Except (Error T R) (T × S)

/-- The `Positioner` trait: a start position and a per-item update. -/
structure PositionerOps (T P : Type) where
  start : P
  update : T → P → P

/-- `State::uncons`: draw one item, advance the position.  Success is
always tagged `Consumed`; failure is always `Empty` with the error at
the state's current position. -/
def State.uncons {S T R P : Type} (st : StreamOps S T R) (po : PositionerOps T P)
    (self : State P S) : ParseResult T S P T R :=
  match st.uncons self.input with
  | .ok (c, input) => .ok (c, .Consumed ⟨po.update c self.position, input⟩)
  | .error err => .error (.Empty (ParseError.new self.position err))

/-- `impl Stream for &str`: a text slice is the list of its scalar
values; `uncons` decodes the first scalar and drops it. -/
def strStream : StreamOps (List Char) Char String :=
  ⟨fun self =>
    match self with
    | c :: rest => .ok (c, rest)
    | [] => .error Error.end_of_input⟩

/-- `impl Stream for &[T]`: `if len > 0 { Ok((self[0], &self[1..])) }`. -/
def sliceStream (T : Type) : StreamOps (List T) T (List T) :=
  ⟨fun self =>
    if h : 0 < self.length then .ok (self.get ⟨0, h⟩, self.drop 1)
    else .error Error.end_of_input⟩

/-- `IteratorStream<I>`: wrapper around a cloneable iterator, modelled
as the list of the items it will yield. -/
structure IteratorStream (T : Type) where
  iter : List T
deriving DecidableEq, Repr

/-- `from_iter`. -/
def from_iter {T : Type} (iter : List T) : IteratorStream T := ⟨iter⟩

/-- `impl Stream for IteratorStream`: `self.0.next()`. -/
def iteratorStream (T : Type) : StreamOps (IteratorStream T) T T :=
  ⟨fun self =>
    match self.iter with
    | x :: rest => .ok (x, ⟨rest⟩)
    | [] => .error Error.end_of_input⟩

/-- `Positioner for char`: start position. -/
def charStart : SourcePosition := ⟨1, 1⟩

/-- Two's-complement wrap into the `i32` range `[-2^31, 2^31)`: the
release-mode result of an overflowing `i32` operation. -/
def wrap32 (x : Int) : Int := (x + 2147483648) % 4294967296 - 2147483648

/-- `Positioner for char`: `column += 1`; on a newline, `column = 1`
and `line += 1`.  The increments are `i32` additions and wrap. -/
def charUpdate (self : Char) (position : SourcePosition) : SourcePosition :=
  let position := { position with column := wrap32 (position.column + 1) }
  if self = '\n' then { position with column := 1, line := wrap32 (position.line + 1) }
  else position

/-- Checked `i32` increment: `none` where a debug build's overflow
check would abort the program. -/
def i32IncChecked (x : Int) : Option Int :=
  if -2147483648 ≤ x + 1 ∧ x + 1 < 2147483648 then some (x + 1) else none

/-- `Positioner for char` under debug-mode overflow checks: `none`
marks the abort of an overflowing `+= 1`. -/
def charUpdateChecked (self : Char) (position : SourcePosition) : Option SourcePosition :=
  match i32IncChecked position.column with
  | none => none
  | some col =>
    let position := { position with column := col }
    if self = '\n' then
      match i32IncChecked position.line with
      | none => none
      | some ln => some { position with column := 1, line := ln }
    else some position

def charPositioner : PositionerOps Char SourcePosition := ⟨charStart, charUpdate⟩

/-- `Positioner for u8`: start position. -/
def byteStart : BytePosition := ⟨0⟩

/-- `Positioner for u8`: `position += 1`. -/
def byteUpdate (_self : UInt8) (b : BytePosition) : BytePosition := ⟨b.position + 1⟩

def bytePositioner : PositionerOps UInt8 BytePosition := ⟨byteStart, byteUpdate⟩

/-- `Positioner for [T]` / `Positioner for str`: update once per
contained element, in order. -/
def listUpdate {T P : Type} (upd : T → P → P) (self : List T) (position : P) : P :=
  self.foldl (fun p t => upd t p) position

/-- `Positioner for str`: `for t in self.chars() { t.update(position) }`. -/
def strUpdate (self : List Char) (position : SourcePosition) : SourcePosition :=
  listUpdate charUpdate self position

/-- The `Parser` trait: the two overridable pieces that the default
`parse_state` is wired from. `add_error` mutates a `ParseError` in the
source and is modelled as a function on it. -/
structure Parser (S P T R O : Type) where
  parse_lazy : State P S → ParseResult O S P T R
  add_error : ParseError P T R → ParseError P T R

/-- Default `Parser::parse_state`: run `parse_lazy`; on an *empty*
failure, if the starting input still has a first item `t`, insert
`Unexpected(Token(t))` into the error, then let the parser's
`add_error` contribute; all other results are returned unchanged. -/
def Parser.parse_state {S P T R O : Type} [BEq T] [BEq R] (st : StreamOps S T R)
    (self : Parser S P T R O) (input : State P S) : ParseResult O S P T R :=
  match self.parse_lazy input with
  | .error (.Empty error) =>
    let error :=
      match st.uncons input.input with
      | .ok (t, _) => error.add_error (.Unexpected (.Token t))
      | .error _ => error
    .error (.Empty (self.add_error error))
  | result => result

/-- Display of `SourcePosition`: `"line: {line}, column: {column}"`. -/
def displaySourcePosition (p : SourcePosition) : String :=
  "line: " ++ toString p.line ++ ", column: " ++ toString p.column

/-- Display of `Info`: the contained value, verbatim. -/
def displayInfo : Info Char String → String
  | .Token c => toString c
  | .Range r => r
  | .Owned s => s
  | .Borrowed s => s

/-- Display of `Error`. -/
def displayError : Error Char String → String
  | .Unexpected c => "Unexpected token '" ++ displayInfo c ++ "'"
  | .Expected s => "Expected " ++ displayInfo s
  | .Message msg => displayInfo msg
  | .Other err => err

def isUnexpected : Error Char String → Bool
  | .Unexpected _ => true
  | _ => false

def isExpectedKind : Error Char String → Bool
  | .Expected _ => true
  | _ => false

def isMessageOrOther : Error Char String → Bool
  | .Message _ => true
  | .Other _ => true
  | _ => false

/-- One segment of the expected line: the separator chosen from the
running count `i` (1-based) against `expected_count`, then the quoted
message. -/
def expectedSegment (expected_count i : Nat) (message : Info Char String) : String :=
  (if i = 1 then "Expected" else if i = expected_count then " or" else ",")
    ++ " '" ++ displayInfo message ++ "'"

/-- The expected-line loop of `Display for ParseError`: walk the error
list, incrementing `i` on each `Expected` entry. -/
def expectedGo (expected_count : Nat) : Nat → List (Error Char String) → String
  | _, [] => ""
  | i, .Expected message :: rest =>
    expectedSegment expected_count (i + 1) message ++ expectedGo expected_count (i + 1) rest
  | i, _ :: rest => expectedGo expected_count i rest

/-- `Display for ParseError`: header line, one line per `Unexpected`,
the expected line built by the counting loop (followed by a newline iff
any `Expected` entry exists), then one line per `Message`/`Other`. -/
def displayParseError (self : ParseError SourcePosition Char String) : String :=
  "Parse error at " ++ displaySourcePosition self.position ++ "\n"
    ++ String.join ((self.errors.filter isUnexpected).map (fun e => displayError e ++ "\n"))
    ++ expectedGo ((self.errors.filter isExpectedKind).length) 0 self.errors
    ++ (if (self.errors.filter isExpectedKind).length ≠ 0 then "\n" else "")
    ++ String.join ((self.errors.filter isMessageOrOther).map (fun e => displayError e ++ "\n"))

/-! Specification-side definitions, written from the spec's words, to be
compared against the code-derived definitions above. -/

/-- Wrap a message in single quotes. -/
def quoteMsg (s : String) : String := "'" ++ s ++ "'"

/-- Tail of the comma-separated list: `", 'b'"` segments with `" or 'z'"`
for the last entry. -/
def joinRest : List String → String
  | [] => ""
  | [a] => " or " ++ quoteMsg a
  | a :: rest => ", " ++ quoteMsg a ++ joinRest rest

/-- `"'a', 'b' or 'c'"`: all entries comma-separated, with `or` before
the last (so `or` only appears when there are at least two). -/
def joinOr : List String → String
  | [] => ""
  | a :: rest => quoteMsg a ++ joinRest rest

/-- The displayed messages of the `Expected` entries, in order. -/
def expectedInfos (errors : List (Error Char String)) : List String :=
  errors.filterMap (fun e =>
    match e with
    | .Expected m => some (displayInfo m)
    | _ => none)

/-- Rendering as the spec describes it: the header, one line per
`Unexpected` entry in order, a single `Expected ...` line when any
`Expected` entry exists, then one line per `Message`/`Other` entry in
order. -/
def specRender (pe : ParseError SourcePosition Char String) : String :=
  "Parse error at " ++ displaySourcePosition pe.position ++ "\n"
    ++ String.join ((pe.errors.filter isUnexpected).map (fun e => displayError e ++ "\n"))
    ++ (if expectedInfos pe.errors = [] then ""
        else "Expected " ++ joinOr (expectedInfos pe.errors) ++ "\n")
    ++ String.join ((pe.errors.filter isMessageOrOther).map (fun e => displayError e ++ "\n"))

/-- The expected-line loop restricted to the expected messages only
(helper for relating the loop to the spec-side join). -/
def segGo (expected_count : Nat) : Nat → List String → String
  | _, [] => ""
  | i, a :: rest =>
    (if i + 1 = 1 then "Expected" else if i + 1 = expected_count then " or" else ",")
      ++ " '" ++ a ++ "'" ++ segGo expected_count (i + 1) rest

/-- Promotion of a parse result as the spec states it for `combine`
after a consumed prefix: the `Empty` flag inside either arm becomes
`Consumed`, payloads unchanged. -/
def promote {O S P T R : Type} (r : ParseResult O S P T R) : ParseResult O S P T R :=
  match r with
  | .ok (v, rest) => .ok (v, rest.as_consumed)
  | .error err => .error err.as_consumed

/-- The consumed flag of a parse result, on whichever arm it sits. -/
def resultFlagEmpty {O S P T R : Type} (r : ParseResult O S P T R) : Bool :=
  match r with
  | .ok (_, rest) => rest.is_empty
  | .error err => err.is_empty

/-- Deduplicating append as the spec describes the tie case of `merge`:
keep `acc`, then add each entry of the second list in order unless an
entry equal to it is already present. -/
def dedupAppend {T R : Type} [BEq T] [BEq R] (acc : List (Error T R)) :
    List (Error T R) → List (Error T R)
  | [] => acc
  | e :: rest =>
    if ((acc.find? (fun m => Error.beq m e)).isNone) then dedupAppend (acc ++ [e]) rest
    else dedupAppend acc rest

/-- First-occurrence filter as the spec describes `add_error` sequences:
keep an entry iff no entry equal to it was already kept. -/
def distinctFirstAux {T R : Type} [BEq T] [BEq R] (seen : List (Error T R)) :
    List (Error T R) → List (Error T R)
  | [] => []
  | e :: rest =>
    if seen.any (fun m => Error.beq m e) then distinctFirstAux (seen ++ [e]) rest
    else e :: distinctFirstAux (seen ++ [e]) rest

/-- The distinct values of a list under `Error` equality, in
first-occurrence order. -/
def distinctFirst {T R : Type} [BEq T] [BEq R] (es : List (Error T R)) : List (Error T R) :=
  distinctFirstAux [] es

/-- Number of newlines in a character list. -/
def countNL (s : List Char) : Nat := s.count '\n'

/-- The suffix of `s` after its last newline (all of `s` when `s` holds
no newline). -/
def afterLastNL (s : List Char) : List Char :=
  (s.reverse.takeWhile (fun c => c != '\n')).reverse

/-- Bounds-checked model of `uncons` for `&str`: the slice access
`&self[c.len_utf8()..]` is modelled as a checked drop of the decoded
scalar, `none` standing for an out-of-bounds panic. -/
def strUnconsChecked (s : List Char) : Option (Except (Error Char String) (Char × List Char)) :=
  match s.head? with
  | some c => if 1 ≤ s.length then some (.ok (c, s.drop 1)) else none
  | none => some (.error Error.end_of_input)

/-- Bounds-checked model of `uncons` for `&[T]`: the accesses `self[0]`
and `&self[1..]` are modelled through `List.get?` and a checked drop,
`none` standing for an out-of-bounds panic. -/
def sliceUnconsChecked {T : Type} (s : List T) :
    Option (Except (Error T (List T)) (T × List T)) :=
  if 0 < s.length then
    match s.get? 0, (if 1 ≤ s.length then some (s.drop 1) else none) with
    | some x, some rest => some (.ok (x, rest))
    | _, _ => none
  else some (.error Error.end_of_input)

/-! ## Claim theorems -/

/-- C2: `Empty(x).combine(f)` returns `f x` unchanged; `Consumed(x).combine(f)`
returns `f x` with any `Empty` flag inside the `Ok` or `Err` arm promoted to
`Consumed` (payload unchanged), hence never yields an `Empty` inner flag. -/
theorem combine_flag_discipline {T O S Q U R : Type} :
    (∀ (x : T) (f : T → ParseResult O S Q U R), (Consumed.Empty x).combine f = f x)
  ∧ (∀ (x : T) (f : T → ParseResult O S Q U R),
      (Consumed.Consumed x).combine f = promote (f x)
    ∧ resultFlagEmpty ((Consumed.Consumed x).combine f) = false) := by
  refine ⟨fun x f => rfl, fun x f => ?_⟩
  cases h : f x with
  | ok vp =>
    obtain ⟨v, rest⟩ := vp
    cases rest <;>
      simp [Consumed.combine, h, promote, Consumed.as_consumed, Consumed.into_inner,
        resultFlagEmpty, Consumed.is_empty]
  | error err =>
    cases err <;>
      simp [Consumed.combine, h, promote, Consumed.as_consumed, Consumed.into_inner,
        resultFlagEmpty, Consumed.is_empty]

/-- C7: `Info` equality is structural per variant except that owned and
static messages compare equal exactly when their contents match, while
token-vs-message and range-vs-message comparisons are always unequal;
`Error` equality requires the same variant with equal `Info`, and an
`Other` error is never equal to any error, not even to itself. -/
theorem info_error_equality_structure {T R : Type} [BEq T] [BEq R] :
    (∀ l r : T, Info.beq (R := R) (.Token l) (.Token r) = (l == r))
  ∧ (∀ l r : R, Info.beq (T := T) (.Range l) (.Range r) = (l == r))
  ∧ (∀ l r : String, Info.beq (T := T) (R := R) (.Owned l) (.Owned r) = (l == r))
  ∧ (∀ l r : String, Info.beq (T := T) (R := R) (.Owned l) (.Borrowed r) = (l == r))
  ∧ (∀ l r : String, Info.beq (T := T) (R := R) (.Borrowed l) (.Owned r) = (l == r))
  ∧ (∀ l r : String, Info.beq (T := T) (R := R) (.Borrowed l) (.Borrowed r) = (l == r))
  ∧ (∀ (t : T) (s : String),
      Info.beq (R := R) (.Token t) (.Owned s) = false
    ∧ Info.beq (R := R) (.Token t) (.Borrowed s) = false
    ∧ Info.beq (R := R) (.Owned s) (.Token t) = false
    ∧ Info.beq (R := R) (.Borrowed s) (.Token t) = false)
  ∧ (∀ (g : R) (s : String),
      Info.beq (T := T) (.Range g) (.Owned s) = false
    ∧ Info.beq (T := T) (.Range g) (.Borrowed s) = false
    ∧ Info.beq (T := T) (.Owned s) (.Range g) = false
    ∧ Info.beq (T := T) (.Borrowed s) (.Range g) = false)
  ∧ (∀ i j : Info T R,
      Error.beq (.Unexpected i) (.Unexpected j) = Info.beq i j
    ∧ Error.beq (.Expected i) (.Expected j) = Info.beq i j
    ∧ Error.beq (.Message i) (.Message j) = Info.beq i j
    ∧ Error.beq (.Unexpected i) (.Expected j) = false
    ∧ Error.beq (.Expected i) (.Unexpected j) = false
    ∧ Error.beq (.Unexpected i) (.Message j) = false
    ∧ Error.beq (.Message i) (.Unexpected j) = false
    ∧ Error.beq (.Expected i) (.Message j) = false
    ∧ Error.beq (.Message i) (.Expected j) = false)
  ∧ (∀ (e : String) (x : Error T R),
      Error.beq (.Other e) x = false ∧ Error.beq x (.Other e) = false) := by
  refine ⟨fun l r => rfl, fun l r => rfl, fun l r => rfl, fun l r => rfl, fun l r => rfl,
    fun l r => rfl, fun t s => ⟨rfl, rfl, rfl, rfl⟩, fun g s => ⟨rfl, rfl, rfl, rfl⟩,
    fun i j => ⟨rfl, rfl, rfl, rfl, rfl, rfl, rfl, rfl, rfl⟩,
    fun e x => ⟨by cases x <;> rfl, by cases x <;> rfl⟩⟩

/-- `Error.beq` against an `Other` entry on the right is always `false`. -/
theorem beq_other_right_false {T R : Type} [BEq T] [BEq R] (m : Error T R) (s : String) :
    Error.beq m (.Other s) = false := by
  cases m <;> rfl

/-- A list containing an `Other` entry is not `BEq`-equal to itself. -/
theorem list_beq_self_other_false {T R : Type} [BEq T] [BEq R]
    (l : List (Error T R)) (s : String) (h : Error.Other s ∈ l) : (l == l) = false := by
  induction l with
  | nil => cases h
  | cons a l ih =>
    rcases List.mem_cons.mp h with ha | hl
    · subst ha
      show (Error.beq (Error.Other s : Error T R) (.Other s) && (l == l)) = false
      rfl
    · show (Error.beq a a && (l == l)) = false
      rw [ih hl, Bool.and_false]

/-- C10: `ParseError` equality compares the position and the error
lists elementwise, so it is not reflexive: a `ParseError` holding an
`Other` entry is not equal to itself, and `add_error` never treats an
`Other` entry as a duplicate. -/
theorem parse_error_eq_not_reflexive {P T R : Type} [BEq P] [BEq T] [BEq R] :
    (∀ a b : ParseError P T R,
        ParseError.beq a b = (a.position == b.position && a.errors == b.errors))
  ∧ (∀ (pe : ParseError P T R) (s : String),
        Error.Other s ∈ pe.errors → ParseError.beq pe pe = false)
  ∧ (∀ (pe : ParseError P T R) (s : String),
        (pe.add_error (.Other s)).errors = pe.errors ++ [.Other s]) := by
  refine ⟨fun a b => rfl, fun pe s h => ?_, fun pe s => ?_⟩
  · show (pe.position == pe.position && pe.errors == pe.errors) = false
    rw [list_beq_self_other_false pe.errors s h, Bool.and_false]
  · have h : pe.errors.find? (fun m => Error.beq m (.Other s)) = none := by
      rw [List.find?_eq_none]
      intro x _
      simp [beq_other_right_false]
    simp [ParseError.add_error, h]

/-- C10 witness: a concrete `ParseError` holding an `Other` entry
compares unequal to itself. -/
theorem parse_error_eq_not_reflexive_witness :
    ParseError.beq (P := Nat) (T := Char) (R := String) ⟨0, [.Other "x"]⟩ ⟨0, [.Other "x"]⟩
      = false :=
  parse_error_eq_not_reflexive.2.1 ⟨0, [.Other "x"]⟩ "x" (List.mem_singleton.mpr rfl)

/-- C4: `State::uncons` tags success `Consumed` and immediate
end-of-input failure `Empty`, the failure carrying the state's current
position and exactly `[Message "End of input"]`, for each built-in
stream (text slice, item slice, iterator adapter). -/
theorem uncons_flag_and_end_of_input {T P : Type} :
    (∀ (p : SourcePosition) (c : Char) (rest : List Char),
        State.uncons strStream charPositioner ⟨p, c :: rest⟩
          = .ok (c, .Consumed ⟨charUpdate c p, rest⟩))
  ∧ (∀ p : SourcePosition,
        State.uncons strStream charPositioner ⟨p, ([] : List Char)⟩
          = .error (.Empty ⟨p, [.Message (.Borrowed "End of input")]⟩))
  ∧ (∀ (po : PositionerOps T P) (p : P) (x : T) (rest : List T),
        State.uncons (sliceStream T) po ⟨p, x :: rest⟩
          = .ok (x, .Consumed ⟨po.update x p, rest⟩))
  ∧ (∀ (po : PositionerOps T P) (p : P),
        State.uncons (sliceStream T) po ⟨p, ([] : List T)⟩
          = .error (.Empty ⟨p, [.Message (.Borrowed "End of input")]⟩))
  ∧ (∀ (po : PositionerOps T P) (p : P) (x : T) (rest : List T),
        State.uncons (iteratorStream T) po ⟨p, from_iter (x :: rest)⟩
          = .ok (x, .Consumed ⟨po.update x p, from_iter rest⟩))
  ∧ (∀ (po : PositionerOps T P) (p : P),
        State.uncons (iteratorStream T) po ⟨p, from_iter ([] : List T)⟩
          = .error (.Empty ⟨p, [.Message (.Borrowed "End of input")]⟩)) := by
  refine ⟨fun p c rest => rfl, fun p => rfl, fun po p x rest => ?_, fun po p => ?_,
    fun po p x rest => rfl, fun po p => rfl⟩
  · simp [State.uncons, sliceStream]
  · simp [State.uncons, sliceStream, ParseError.new, Error.end_of_input]

/-- Appending one character to the consumed text applies one more
character update. -/
theorem strUpdate_append (s : List Char) (c : Char) (p : SourcePosition) :
    strUpdate (s ++ [c]) p = charUpdate c (strUpdate s p) := by
  simp [strUpdate, listUpdate, List.foldl_append]

/-- Byte positions advance by exactly the number of consumed bytes. -/
theorem listUpdate_byteUpdate (l : List UInt8) :
    ∀ n : Nat, listUpdate byteUpdate l ⟨n⟩ = ⟨n + l.length⟩ := by
  induction l with
  | nil => intro n; simp [listUpdate]
  | cons x l ih =>
    intro n
    show listUpdate byteUpdate l ⟨n + 1⟩ = _
    rw [ih]
    simp [Nat.add_comm, Nat.add_assoc, Nat.add_left_comm]

/-- `wrap32` always lands in the `i32` range. -/
theorem wrap32_range (x : Int) : -2147483648 ≤ wrap32 x ∧ wrap32 x < 2147483648 := by
  unfold wrap32
  omega

/-- `wrap32` is the identity on in-range values. -/
theorem wrap32_eq_self {x : Int} (h1 : -2147483648 ≤ x) (h2 : x < 2147483648) :
    wrap32 x = x := by
  unfold wrap32
  omega

/-- Wrapping commutes with later additions. -/
theorem wrap32_add_left (x n : Int) : wrap32 (wrap32 x + n) = wrap32 (x + n) := by
  unfold wrap32
  omega

/-- The newline count never exceeds the string length. -/
theorem countNL_le_length (s : List Char) : countNL s ≤ s.length :=
  List.count_le_length _ _

/-- `takeWhile` never lengthens a list. -/
theorem length_takeWhile_le_self (p : Char → Bool) (l : List Char) :
    (l.takeWhile p).length ≤ l.length := by
  induction l with
  | nil => exact Nat.le_refl 0
  | cons a l ih =>
    by_cases h : p a = true
    · simpa [List.takeWhile_cons, h] using Nat.succ_le_succ ih
    · simp [List.takeWhile_cons, h]

/-- The suffix after the last newline never exceeds the string length. -/
theorem afterLastNL_length_le (s : List Char) : (afterLastNL s).length ≤ s.length := by
  have h := length_takeWhile_le_self (fun c => c != '\n') s.reverse
  simpa [afterLastNL] using h

/-- Closed form of a run of non-newline characters: the column is a
single wrap of the ideal sum. -/
theorem strUpdate_replicate (n : Nat) :
    ∀ l c : Int, -2147483648 ≤ c → c < 2147483648 →
      strUpdate (List.replicate n 'a') ⟨l, c⟩ = ⟨l, wrap32 (c + n)⟩ := by
  induction n with
  | zero =>
    intro l c h1 h2
    simp [strUpdate, listUpdate, wrap32_eq_self h1 h2]
  | succ n ih =>
    intro l c h1 h2
    rw [List.replicate_succ]
    show strUpdate (List.replicate n 'a') (charUpdate 'a' ⟨l, c⟩) = _
    have hstep : charUpdate 'a' ⟨l, c⟩ = ⟨l, wrap32 (c + 1)⟩ := rfl
    rw [hstep, ih l (wrap32 (c + 1)) (wrap32_range (c + 1)).1 (wrap32_range (c + 1)).2,
      wrap32_add_left]
    have harg : c + 1 + (n : Int) = c + ((n + 1 : Nat) : Int) := by push_cast; ring
    rw [harg]

/-- No newline occurs in a replicated run of `'a'`. -/
theorem countNL_replicate (n : Nat) : countNL (List.replicate n 'a') = 0 := by
  induction n with
  | zero => rfl
  | succ n ih =>
    rw [List.replicate_succ]
    show countNL ('a' :: List.replicate n 'a') = 0
    simp only [countNL, List.count_cons] at ih ⊢
    simp [ih]

/-- A replicated run of `'a'` is its own suffix after the last
newline. -/
theorem afterLastNL_replicate (n : Nat) :
    afterLastNL (List.replicate n 'a') = List.replicate n 'a' := by
  have ht : ∀ m : Nat, (List.replicate m 'a').takeWhile (fun c => c != '\n')
      = List.replicate m 'a' := by
    intro m
    induction m with
    | zero => rfl
    | succ m ih =>
      rw [List.replicate_succ]
      simp [List.takeWhile_cons, ih]
  simp [afterLastNL, ht]

/-- C5 (amended): starting from `{line: 1, column: 1}`, consuming a
string `s` whose length keeps the `i32` counters in range
(`s.length ≤ 2^31 - 2`) leaves the text position at
`{line: 1 + count of newlines, column: 1 + length of the suffix after
the last newline}`; starting from offset `0`, consuming `n` bytes
leaves the byte position at offset `n`.  The length bound is forced by
the `i32` column wrap on a longer single line. -/
theorem position_update_correct :
    (∀ s : List Char, s.length ≤ 2147483646 →
        strUpdate s ⟨1, 1⟩ = ⟨1 + (countNL s : Int), 1 + ((afterLastNL s).length : Int)⟩)
  ∧ (∀ l : List UInt8, listUpdate byteUpdate l ⟨0⟩ = ⟨l.length⟩) := by
  constructor
  · intro s
    induction s using List.reverseRecOn with
    | nil => intro _; simp [strUpdate, listUpdate, countNL, afterLastNL]
    | append_singleton s c ih =>
      intro hlen
      have hslen : s.length ≤ 2147483645 := by
        simp [List.length_append] at hlen
        omega
      have hcnt : countNL s ≤ s.length := countNL_le_length s
      have haft : (afterLastNL s).length ≤ s.length := afterLastNL_length_le s
      rw [strUpdate_append, ih (by omega)]
      by_cases hc : c = '\n'
      · subst hc
        have hres : charUpdate '\n'
              ⟨1 + (countNL s : Int), 1 + ((afterLastNL s).length : Int)⟩
            = ⟨1 + (countNL s : Int) + 1, 1⟩ := by
          simp only [charUpdate, if_pos rfl]
          have hw : wrap32 (1 + (countNL s : Int) + 1) = 1 + (countNL s : Int) + 1 :=
            wrap32_eq_self (by omega) (by omega)
          simp [hw]
        rw [hres]
        have hcount : countNL (s ++ ['\n']) = countNL s + 1 := by
          simp [countNL, List.count_append]
        have hsuffix : afterLastNL (s ++ ['\n']) = [] := by
          simp [afterLastNL, List.takeWhile_cons]
        rw [hcount, hsuffix]
        simp only [SourcePosition.mk.injEq, List.length_nil]
        omega
      · have hres : charUpdate c
              ⟨1 + (countNL s : Int), 1 + ((afterLastNL s).length : Int)⟩
            = ⟨1 + (countNL s : Int), 1 + ((afterLastNL s).length : Int) + 1⟩ := by
          simp only [charUpdate, if_neg hc]
          have hw : wrap32 (1 + ((afterLastNL s).length : Int) + 1)
              = 1 + ((afterLastNL s).length : Int) + 1 :=
            wrap32_eq_self (by omega) (by omega)
          simp [hw]
        rw [hres]
        have hcount : countNL (s ++ [c]) = countNL s := by
          simp [countNL, List.count_append, List.count_singleton']
          intro h
          exact absurd h hc
        have hsuffix : afterLastNL (s ++ [c]) = afterLastNL s ++ [c] := by
          simp [afterLastNL, List.takeWhile_cons, bne_iff_ne, hc]
        rw [hcount, hsuffix]
        simp only [SourcePosition.mk.injEq, List.length_append, List.length_singleton]
        exact ⟨trivial, by omega⟩
  · intro l
    rw [listUpdate_byteUpdate l 0]
    simp

/-- C5 witness: the bounded closed form evaluated on `"a\n" ++ "b"`. -/
theorem position_update_correct_witness :
    strUpdate ['a', '\n', 'b'] ⟨1, 1⟩ = ⟨2, 2⟩ :=
  (position_update_correct.1 ['a', '\n', 'b'] (by norm_num)).trans (by decide)

/-- C5 counterexample: a single line of `2^31 - 1` characters
overflows the `i32` column, so the position after it has a wrapped
negative column, not the claimed `1 + length`. -/
theorem position_update_overflow_counterexample :
    strUpdate (List.replicate 2147483647 'a') ⟨1, 1⟩
      ≠ ⟨1 + (countNL (List.replicate 2147483647 'a') : Int),
         1 + ((afterLastNL (List.replicate 2147483647 'a')).length : Int)⟩ := by
  rw [strUpdate_replicate 2147483647 1 1 (by omega) (by omega), countNL_replicate,
    afterLastNL_replicate]
  intro h
  have h2 := congrArg SourcePosition.column h
  simp only [wrap32, List.length_replicate] at h2
  omega

/-- C9 (amended): no slice access inside the built-in `uncons`
implementations can go out of bounds (the checked models always return
the unchecked result), `State::uncons` always returns a value — `Ok` or
an `Err` wrapping the failure as an `Empty`-tagged `ParseError` — the
byte-offset update is total, and the text position update is abort-free
on positions whose counters stay below `i32::MAX`, where the checked
(debug) update returns exactly the wrapping (release) update's result.
At the `i32` boundary — reachable by a long enough single line — the
increment overflows. -/
theorem core_total_no_panic {S T R P : Type} :
    (∀ s : List Char, strUnconsChecked s = some (strStream.uncons s))
  ∧ (∀ s : List T, sliceUnconsChecked s = some ((sliceStream T).uncons s))
  ∧ (∀ (st : StreamOps S T R) (po : PositionerOps T P) (s : State P S),
      (∃ c rest, State.uncons st po s = .ok (c, rest))
    ∨ (∃ e, State.uncons st po s = .error (.Empty e)))
  ∧ (∀ (c : Char) (p : SourcePosition),
      -2147483648 ≤ p.column → p.column + 1 < 2147483648 →
      -2147483648 ≤ p.line → p.line + 1 < 2147483648 →
      charUpdateChecked c p = some (charUpdate c p))
  ∧ (∀ (b : UInt8) (p : BytePosition), byteUpdate b p = ⟨p.position + 1⟩) := by
  refine ⟨fun s => ?_, fun s => ?_, fun st po s => ?_,
    fun c p h1 h2 h3 h4 => ?_, fun b p => rfl⟩
  · cases s with
    | nil => rfl
    | cons c rest => simp [strUnconsChecked, strStream]
  · cases s with
    | nil => rfl
    | cons x rest => simp [sliceUnconsChecked, sliceStream]
  · cases h : st.uncons s.input with
    | ok pr => exact Or.inl ⟨pr.1, .Consumed ⟨po.update pr.1 s.position, pr.2⟩,
        by simp [State.uncons, h]⟩
    | error e => exact Or.inr ⟨ParseError.new s.position e, by simp [State.uncons, h]⟩
  · have hcol : i32IncChecked p.column = some (p.column + 1) := by
      unfold i32IncChecked
      rw [if_pos ⟨by omega, h2⟩]
    have hline : i32IncChecked p.line = some (p.line + 1) := by
      unfold i32IncChecked
      rw [if_pos ⟨by omega, h4⟩]
    have hwc : wrap32 (p.column + 1) = p.column + 1 := wrap32_eq_self (by omega) h2
    by_cases hc : c = '\n'
    · subst hc
      have hwl : wrap32 (p.line + 1) = p.line + 1 := wrap32_eq_self (by omega) h4
      simp [charUpdateChecked, charUpdate, hcol, hline, hwc, hwl]
    · simp [charUpdateChecked, charUpdate, hcol, hc, hwc]

/-- C9 witness: away from the boundary the checked update agrees with
the wrapping update. -/
theorem core_total_no_panic_witness :
    charUpdateChecked 'x' ⟨1, 1⟩ = some (charUpdate 'x' ⟨1, 1⟩) :=
  (core_total_no_panic (S := Unit) (T := Unit) (R := Unit) (P := Unit)).2.2.2.1 'x' ⟨1, 1⟩
    (by decide) (by decide) (by decide) (by decide)

/-- C9 counterexample: `{line: 1, column: i32::MAX}` is reachable (a
single line of `2^31 - 2` characters), and the update there is not
abort-free: the checked increment aborts and the wrapping increment
turns the column negative. -/
theorem char_update_overflow_counterexample :
    strUpdate (List.replicate 2147483646 'a') ⟨1, 1⟩ = ⟨1, 2147483647⟩
  ∧ charUpdateChecked 'a' ⟨1, 2147483647⟩ = none
  ∧ charUpdate 'a' ⟨1, 2147483647⟩ = ⟨1, -2147483648⟩ := by
  refine ⟨?_, by decide, by decide⟩
  rw [strUpdate_replicate 2147483646 1 1 (by omega) (by omega)]
  simp only [SourcePosition.mk.injEq, wrap32]
  exact ⟨trivial, by omega⟩

/-- C1: the default `parse_state` enriches an *empty* failure of
`parse_lazy`: when the starting state still has a first item `t`,
`Unexpected(Token(t))` is inserted into the error and the parser's own
`add_error` is applied; a consumed failure and a success are returned
unchanged, so `add_error` runs only on empty failures. -/
theorem parse_state_default_enrichment {S P T R O : Type} [BEq T] [BEq R]
    (st : StreamOps S T R) (p : Parser S P T R O) (input : State P S) :
    (∀ e t rest, p.parse_lazy input = .error (.Empty e) →
        st.uncons input.input = .ok (t, rest) →
        p.parse_state st input
          = .error (.Empty (p.add_error (e.add_error (.Unexpected (.Token t))))))
  ∧ (∀ e, p.parse_lazy input = .error (.Consumed e) →
        p.parse_state st input = .error (.Consumed e))
  ∧ (∀ v, p.parse_lazy input = .ok v → p.parse_state st input = .ok v) := by
  refine ⟨fun e t rest h1 h2 => ?_, fun e h => ?_, fun v h => ?_⟩
  · simp [Parser.parse_state, h1, h2]
  · simp [Parser.parse_state, h]
  · simp [Parser.parse_state, h]

/-- A concrete parser for exercising the default `parse_state`: it
always fails without consuming, and its `add_error` contributes
`Expected("digit")`. -/
def digitFail : Parser (List Char) SourcePosition Char String Unit :=
  ⟨fun input => .error (.Empty (ParseError.empty input.position)),
   fun e => e.add_error (.Expected (.Borrowed "digit"))⟩

/-- C1 witness: on input `"a"`, the enriched empty failure carries the
unexpected token and the parser's expected message. -/
theorem parse_state_default_enrichment_witness :
    digitFail.parse_state strStream ⟨⟨1, 1⟩, ['a']⟩
      = .error (.Empty ⟨⟨1, 1⟩,
          [.Unexpected (.Token 'a'), .Expected (.Borrowed "digit")]⟩) :=
  ((parse_state_default_enrichment strStream digitFail ⟨⟨1, 1⟩, ['a']⟩).1
    (ParseError.empty ⟨1, 1⟩) 'a' [] rfl rfl).trans (by rfl)

/-- Folding `add_error` over a list keeps the position and produces the
deduplicating append of the spec. -/
theorem foldl_add_error_spec {P T R : Type} [BEq T] [BEq R] (es : List (Error T R)) :
    ∀ pe : ParseError P T R,
      (es.foldl ParseError.add_error pe).position = pe.position
    ∧ (es.foldl ParseError.add_error pe).errors = dedupAppend pe.errors es := by
  induction es with
  | nil => exact fun pe => ⟨rfl, rfl⟩
  | cons e rest ih =>
    intro pe
    by_cases h : (pe.errors.find? (fun m => Error.beq m e)).isNone = true
    · have hadd : pe.add_error e = ⟨pe.position, pe.errors ++ [e]⟩ := by
        simp [ParseError.add_error, h]
      constructor
      · show (rest.foldl ParseError.add_error (pe.add_error e)).position = pe.position
        rw [hadd]
        exact (ih _).1
      · show (rest.foldl ParseError.add_error (pe.add_error e)).errors
          = dedupAppend pe.errors (e :: rest)
        rw [hadd, (ih _).2]
        show dedupAppend (pe.errors ++ [e]) rest = _
        simp only [dedupAppend]
        rw [if_pos h]
    · have hadd : pe.add_error e = pe := by simp [ParseError.add_error, h]
      constructor
      · show (rest.foldl ParseError.add_error (pe.add_error e)).position = pe.position
        rw [hadd]
        exact (ih _).1
      · show (rest.foldl ParseError.add_error (pe.add_error e)).errors
          = dedupAppend pe.errors (e :: rest)
        rw [hadd, (ih _).2]
        simp only [dedupAppend]
        rw [if_neg h]

/-- C3: `merge` keeps the furthest position: the merged position is the
maximum, the errors are those of the strictly-larger-position argument
when positions differ, and at a tie they are the deduplicated union of
`a`'s errors followed by `b`'s new entries. -/
theorem merge_position_maximal {P T R : Type} [LinearOrder P] [BEq T] [BEq R]
    (a b : ParseError P T R) :
    (a.merge b).position = max a.position b.position
  ∧ (a.position < b.position → (a.merge b).errors = b.errors)
  ∧ (b.position < a.position → (a.merge b).errors = a.errors)
  ∧ (a.position = b.position → (a.merge b).errors = dedupAppend a.errors b.errors) := by
  rcases lt_trichotomy a.position b.position with h | h | h
  · have hm : a.merge b = b := by simp [ParseError.merge, posCmp, h]
    rw [hm]
    exact ⟨(max_eq_right h.le).symm, fun _ => rfl, fun h2 => absurd h2 (asymm h),
      fun h2 => absurd h2 (ne_of_lt h)⟩
  · have hm : a.merge b = b.errors.foldl ParseError.add_error a := by
      simp [ParseError.merge, posCmp, h, lt_irrefl]
    rw [hm]
    rcases foldl_add_error_spec b.errors a with ⟨hp, he⟩
    exact ⟨by rw [hp, h, max_self], fun h2 => absurd h h2.ne, fun h2 => absurd h h2.ne',
      fun _ => he⟩
  · have hm : a.merge b = a := by simp [ParseError.merge, posCmp, asymm h, h]
    rw [hm]
    exact ⟨(max_eq_left h.le).symm, fun h2 => absurd h2 (asymm h), fun _ => rfl,
      fun h2 => absurd h2.symm (ne_of_lt h)⟩

/-- C3 witness: the S5 tie scenario — merging equal-position errors
deduplicates while preserving first-occurrence order. -/
theorem merge_position_maximal_witness :
    (⟨3, [.Expected (.Borrowed "a")]⟩ : ParseError Nat Char String).position
      = (⟨3, [.Expected (.Borrowed "b"), .Expected (.Borrowed "a")]⟩ :
          ParseError Nat Char String).position
  ∧ ((⟨3, [.Expected (.Borrowed "a")]⟩ : ParseError Nat Char String).merge
        ⟨3, [.Expected (.Borrowed "b"), .Expected (.Borrowed "a")]⟩).errors
      = [.Expected (.Borrowed "a"), .Expected (.Borrowed "b")] :=
  ⟨rfl, ((merge_position_maximal ⟨3, [.Expected (.Borrowed "a")]⟩
      ⟨3, [.Expected (.Borrowed "b"), .Expected (.Borrowed "a")]⟩).2.2.2 rfl).trans
    (by decide)⟩

/-- `Info` equality on character/string payloads is transitive (the
owned/static collapse compares string contents, which is transitive). -/
theorem info_beq_trans_cs (a b c : Info Char String) :
    Info.beq a b = true → Info.beq b c = true → Info.beq a c = true := by
  cases a <;> cases b <;> cases c <;> simp_all [Info.beq]

/-- `Error` equality on character/string payloads is transitive (it is
`false` whenever an `Other` entry is involved). -/
theorem error_beq_trans_cs (a b c : Error Char String)
    (hab : Error.beq a b = true) (hbc : Error.beq b c = true) : Error.beq a c = true := by
  cases a <;> cases b <;> cases c <;>
    simp only [Error.beq] at hab hbc ⊢ <;>
    first
      | rfl
      | exact absurd hab Bool.false_ne_true
      | exact absurd hbc Bool.false_ne_true
      | exact info_beq_trans_cs _ _ _ hab hbc

/-- Folding `add_error` over `es` appends exactly the entries kept by
the first-occurrence filter, given that every existing error is among
the already-seen entries and every seen entry is matched inside the
accumulated error list. -/
theorem foldl_add_error_distinct {P : Type} (es : List (Error Char String)) :
    ∀ (pe : ParseError P Char String) (seen : List (Error Char String)),
      (∀ m ∈ pe.errors, m ∈ seen) →
      (∀ s ∈ seen, s ∈ pe.errors ∨ ∃ m ∈ pe.errors, Error.beq m s = true) →
      (es.foldl ParseError.add_error pe).errors = pe.errors ++ distinctFirstAux seen es := by
  induction es with
  | nil => intro pe seen hsub hcov; simp [distinctFirstAux]
  | cons e rest ih =>
    intro pe seen hsub hcov
    show (rest.foldl ParseError.add_error (pe.add_error e)).errors = _
    by_cases h : (pe.errors.find? (fun m => Error.beq m e)).isNone = true
    · have hnone : pe.errors.find? (fun m => Error.beq m e) = none :=
        Option.isNone_iff_eq_none.mp h
      have hseen : seen.any (fun m => Error.beq m e) = false := by
        by_contra hc
        rw [Bool.not_eq_false] at hc
        rcases List.any_eq_true.mp hc with ⟨s, hsmem, hbeq⟩
        rcases hcov s hsmem with hmem | ⟨m, hmmem, hmbeq⟩
        · exact List.find?_eq_none.mp hnone s hmem hbeq
        · exact List.find?_eq_none.mp hnone m hmmem (error_beq_trans_cs m s e hmbeq hbeq)
      have hadd : pe.add_error e = ⟨pe.position, pe.errors ++ [e]⟩ := by
        simp [ParseError.add_error, h]
      rw [hadd, ih ⟨pe.position, pe.errors ++ [e]⟩ (seen ++ [e]) ?_ ?_]
      · show (pe.errors ++ [e]) ++ distinctFirstAux (seen ++ [e]) rest
          = pe.errors ++ distinctFirstAux seen (e :: rest)
        simp [distinctFirstAux, hseen]
      · intro m hm
        rcases List.mem_append.mp hm with hm | hm
        · exact List.mem_append_left _ (hsub m hm)
        · exact List.mem_append_right _ hm
      · intro s hs
        rcases List.mem_append.mp hs with hs | hs
        · rcases hcov s hs with hmem | ⟨m, hmmem, hmbeq⟩
          · exact Or.inl (List.mem_append_left _ hmem)
          · exact Or.inr ⟨m, List.mem_append_left _ hmmem, hmbeq⟩
        · rcases List.mem_singleton.mp hs with rfl
          exact Or.inl (List.mem_append_right _ (List.mem_singleton.mpr rfl))
    · have hsome : ∃ m ∈ pe.errors, Error.beq m e = true := by
        cases hfind : pe.errors.find? (fun m => Error.beq m e) with
        | none => exact absurd (by rw [hfind]; rfl) h
        | some m =>
          exact ⟨m, List.mem_of_find?_eq_some hfind,
            List.find?_some (p := fun m => Error.beq m e) hfind⟩
      have hseen : seen.any (fun m => Error.beq m e) = true := by
        rcases hsome with ⟨m, hm, hbeq⟩
        exact List.any_eq_true.mpr ⟨m, hsub m hm, hbeq⟩
      have hadd : pe.add_error e = pe := by simp [ParseError.add_error, h]
      rw [hadd, ih pe (seen ++ [e]) ?_ ?_]
      · show pe.errors ++ distinctFirstAux (seen ++ [e]) rest
          = pe.errors ++ distinctFirstAux seen (e :: rest)
        simp [distinctFirstAux, hseen]
      · exact fun m hm => List.mem_append_left _ (hsub m hm)
      · intro s hs
        rcases List.mem_append.mp hs with hs | hs
        · exact hcov s hs
        · rcases List.mem_singleton.mp hs with rfl
          exact Or.inr hsome

/-- C6: starting from an empty error list, a finite sequence of
`add_error(e_i)` calls leaves exactly the distinct values among the
`e_i` under `Error` equality, in first-occurrence order; each call
appends its argument exactly when no existing entry compares equal to
it. -/
theorem add_error_dedup_first_occurrence {P : Type} (p : P) (es : List (Error Char String)) :
    ((es.foldl ParseError.add_error (ParseError.empty p)).errors = distinctFirst es)
  ∧ (∀ (pe : ParseError P Char String) (e : Error Char String),
      (∃ m ∈ pe.errors, Error.beq m e = true) → (pe.add_error e).errors = pe.errors)
  ∧ (∀ (pe : ParseError P Char String) (e : Error Char String),
      (∀ m ∈ pe.errors, Error.beq m e = false) → (pe.add_error e).errors = pe.errors ++ [e]) := by
  refine ⟨?_, fun pe e h => ?_, fun pe e h => ?_⟩
  · have := foldl_add_error_distinct es (ParseError.empty p) []
      (by simp [ParseError.empty]) (by simp)
    simpa [ParseError.empty, distinctFirst] using this
  · rcases h with ⟨m, hm, hbeq⟩
    have hne : (pe.errors.find? (fun m => Error.beq m e)).isNone = false := by
      cases hfind : pe.errors.find? (fun m => Error.beq m e) with
      | none => exact absurd (List.find?_eq_none.mp hfind m hm) (by simp [hbeq])
      | some x => rfl
    simp [ParseError.add_error, hne]
  · have hnone : pe.errors.find? (fun m => Error.beq m e) = none :=
      List.find?_eq_none.mpr (fun x hx => by simp [h x hx])
    simp [ParseError.add_error, hnone]

/-- C6 witness: duplicate `Expected` entries are dropped (also across
the owned/static message collapse) while `Other` entries are always
appended, even when repeated. -/
theorem add_error_dedup_first_occurrence_witness :
    ((([.Expected (.Borrowed "a"), .Expected (.Borrowed "a"), .Other "x", .Other "x"] :
          List (Error Char String)).foldl ParseError.add_error
        (ParseError.empty (0 : Nat))).errors
      = [.Expected (.Borrowed "a"), .Other "x", .Other "x"])
  ∧ ((⟨0, [.Expected (.Borrowed "a")]⟩ : ParseError Nat Char String).add_error
        (.Expected (.Owned "a"))).errors = [.Expected (.Borrowed "a")] :=
  ⟨(add_error_dedup_first_occurrence (0 : Nat)
      [.Expected (.Borrowed "a"), .Expected (.Borrowed "a"), .Other "x", .Other "x"]).1.trans
    (by decide),
   (add_error_dedup_first_occurrence (0 : Nat) []).2.1 ⟨0, [.Expected (.Borrowed "a")]⟩
     (.Expected (.Owned "a"))
     ⟨.Expected (.Borrowed "a"), List.mem_singleton.mpr rfl, by decide⟩⟩

/-- Fuse the leading literals of two equal-prefix concatenations. -/
theorem string_append_fuse {p q r s x : String} (h : p ++ q = r ++ s) :
    p ++ (q ++ x) = r ++ (s ++ x) := by
  rw [← String.append_assoc, h, String.append_assoc]

/-- The expected-line loop only looks at the `Expected` entries. -/
theorem expectedGo_eq_segGo (errors : List (Error Char String)) :
    ∀ count i : Nat, expectedGo count i errors = segGo count i (expectedInfos errors) := by
  induction errors with
  | nil => intro count i; rfl
  | cons e rest ih =>
    intro count i
    cases e with
    | Expected m =>
      show expectedSegment count (i + 1) m ++ expectedGo count (i + 1) rest = _
      rw [ih]
      rfl
    | Unexpected m => exact ih count i
    | Message m => exact ih count i
    | Other m => exact ih count i

/-- Past the first entry, the counting loop produces the comma-separated
tail with `or` before the last entry. -/
theorem segGo_eq_joinRest (l : List String) :
    ∀ i : Nat, 1 ≤ i → segGo (i + l.length) i l = joinRest l := by
  induction l with
  | nil => intro i _; rfl
  | cons a rest ihr =>
    intro i hi
    cases rest with
    | nil =>
      show (if i + 1 = 1 then "Expected" else if i + 1 = i + [a].length then " or" else ",")
          ++ " '" ++ a ++ "'" ++ segGo (i + [a].length) (i + 1) [] = joinRest [a]
      rw [if_neg (by omega), if_pos (by simp)]
      simp only [segGo, joinRest, quoteMsg, String.append_assoc, String.append_empty]
      exact string_append_fuse (by decide)
    | cons b t =>
      show (if i + 1 = 1 then "Expected"
            else if i + 1 = i + (a :: b :: t).length then " or" else ",")
          ++ " '" ++ a ++ "'" ++ segGo (i + (a :: b :: t).length) (i + 1) (b :: t)
          = joinRest (a :: b :: t)
      rw [if_neg (by omega), if_neg (by simp)]
      have hc : i + (a :: b :: t).length = (i + 1) + (b :: t).length := by
        simp [List.length_cons]
        omega
      rw [hc, ihr (i + 1) (by omega)]
      show "," ++ " '" ++ a ++ "'" ++ joinRest (b :: t)
          = ", " ++ quoteMsg a ++ joinRest (b :: t)
      simp only [quoteMsg, String.append_assoc]
      exact string_append_fuse (by decide)

/-- The counting loop over a non-empty expected list produces the
spec's single `Expected ...` line. -/
theorem segGo_head (a : String) (rest : List String) :
    segGo ((a :: rest).length) 0 (a :: rest) = "Expected " ++ joinOr (a :: rest) := by
  show (if 0 + 1 = 1 then "Expected"
        else if 0 + 1 = (a :: rest).length then " or" else ",")
      ++ " '" ++ a ++ "'" ++ segGo ((a :: rest).length) (0 + 1) rest
      = "Expected " ++ joinOr (a :: rest)
  rw [if_pos rfl]
  have hc : (a :: rest).length = (0 + 1) + rest.length := by
    simp [List.length_cons]
    omega
  rw [hc, segGo_eq_joinRest rest (0 + 1) (by omega)]
  show "Expected" ++ " '" ++ a ++ "'" ++ joinRest rest
      = "Expected " ++ (quoteMsg a ++ joinRest rest)
  simp only [quoteMsg, String.append_assoc]
  exact string_append_fuse (by decide)

/-- The filtered count used by the loop equals the number of expected
messages. -/
theorem expectedInfos_length (errors : List (Error Char String)) :
    (errors.filter isExpectedKind).length = (expectedInfos errors).length := by
  induction errors with
  | nil => rfl
  | cons e rest ih =>
    cases e <;>
      simp [expectedInfos, isExpectedKind, List.filter_cons, List.filterMap_cons, ih]

/-- The expected section of the code-side rendering (loop plus its
conditional newline) equals the spec-side single line. -/
theorem expected_section_eq (errors : List (Error Char String)) :
    expectedGo ((errors.filter isExpectedKind).length) 0 errors
      ++ (if (errors.filter isExpectedKind).length ≠ 0 then "\n" else "")
    = (if expectedInfos errors = [] then ""
       else "Expected " ++ joinOr (expectedInfos errors) ++ "\n") := by
  rw [expectedGo_eq_segGo, expectedInfos_length]
  cases hinfo : expectedInfos errors with
  | nil => simp [segGo]
  | cons a rest =>
    have h1 : (a :: rest).length ≠ 0 := by simp
    have h2 : ¬(a :: rest = ([] : List String)) := by simp
    rw [if_pos h1, if_neg h2, segGo_head]

/-- C8: the `Display` rendering of a `ParseError` is the header line,
one line per `Unexpected` entry in insertion order, a single line
listing the `Expected` entries comma-separated with `or` before the
last (present only when at least one `Expected` entry exists), then one
line per `Message`/`Other` entry in insertion order; the S6 scenario
renders exactly its four lines. -/
theorem display_parse_error_spec :
    (∀ pe : ParseError SourcePosition Char String, displayParseError pe = specRender pe)
  ∧ displayParseError ⟨⟨2, 5⟩,
      [.Unexpected (.Token 'x'), .Expected (.Borrowed "digit"),
       .Expected (.Borrowed "letter"), .Message (.Borrowed "bad")]⟩
    = "Parse error at line: 2, column: 5\nUnexpected token 'x'\nExpected 'digit' or 'letter'\nbad\n" := by
  constructor
  · intro pe
    unfold displayParseError specRender
    rw [String.append_assoc
        ("Parse error at " ++ displaySourcePosition pe.position ++ "\n"
          ++ String.join ((pe.errors.filter isUnexpected).map (fun e => displayError e ++ "\n")))
        (expectedGo ((pe.errors.filter isExpectedKind).length) 0 pe.errors)
        (if (pe.errors.filter isExpectedKind).length ≠ 0 then "\n" else "")]
    rw [expected_section_eq]
  · rfl

end Combine
